import Mathlib

/-!
Verification development for the `variant-repack` repackaging pipeline
(`variant_repack/commands/build.py`).

Python strings are modelled as `List Char`; Python functions raising
exceptions are modelled with `Except PyError`; the metadata record (an
email-style message) is modelled by the structure `Metadata`; the two named
configuration profiles are modelled by `MetadataConfig` / `VariantConfig`.
External collaborators (wheel pack/unpack, the variant descriptor encoder)
are not part of the repository's sources; where a claim needs them they are
modelled from the spec and marked as such.
-/

namespace VariantRepack

/-- Python strings, modelled as lists of characters. -/
abbrev Str := List Char

/-- Turn a Lean string literal into the character-list model. -/
def tl (s : String) : Str := s.toList

/-- Python exception values raised in `build.py`, carrying the data their
messages are built from.  `keyError` keeps the missing-name / available-names
structure of the f-string message of `read_configuration`. -/
inductive PyError where
  | fileNotFoundError (msg : Str)
  | valueError (msg : Str)
  | keyError (table : Str) (missing : Str) (available : List Str)
deriving Repr, DecidableEq

/-- The character class `[a-zA-Z0-9_.]` used by the `re.sub` patterns in
`build.py` (`isAlphanum` is exactly ASCII `[a-zA-Z0-9]`). -/
def isTagChar (c : Char) : Bool := c.isAlphanum || c == '_' || c == '.'

/-- Python `s.split("-")`: split on every dash, keeping empty segments. -/
def splitDash : Str → List Str
  | [] => [[]]
  | c :: rest =>
    if c = '-' then [] :: splitDash rest
    else
      match splitDash rest with
      | [] => [[c]]
      | s :: ss => (c :: s) :: ss

/-- Python `"-".join(parts)`. -/
def joinDash : List Str → Str
  | [] => []
  | [p] => p
  | p :: ps => p ++ '-' :: joinDash ps

/-- `re.sub(r"\+[a-zA-Z0-9_\.]+", "", s)`: delete every non-overlapping
occurrence of a `+` followed by a maximal nonempty run of tag characters,
scanning left to right (this is what the regex engine does: only a `+` can
start a match, the greedy `+` quantifier takes the maximal run, and the scan
resumes after the deleted match).  The first argument is structural fuel:
every step consumes at least one character, so `s.length` steps always
suffice and the fuel-exhausted branch is unreachable from `subPlusTag`. -/
def subPlusTagF : Nat → Str → Str
  | _, [] => []
  | 0, s => s
  | fuel + 1, c :: rest =>
    if c = '+' ∧ rest.takeWhile isTagChar ≠ [] then
      subPlusTagF fuel (rest.dropWhile isTagChar)
    else
      c :: subPlusTagF fuel rest

/-- The `re.sub` of build.py line 61, with the fuel instantiated. -/
def subPlusTag (s : Str) : Str := subPlusTagF s.length s

/-- `sanitize_wheel_filename` (build.py lines 55-63): split on `-`, reject
fewer than two segments, apply the `re.sub` above to segment index 1,
rejoin. -/
def sanitize_wheel_filename (filename : Str) : Except PyError Str :=
  let parts := splitDash filename
  if parts.length < 2 then
    .error (.valueError (tl "Invalid wheel filename: " ++ filename))
  else
    .ok (joinDash (parts.set 1 (subPlusTag (parts.getD 1 []))))

/-- Spec-described sanitizer, written from the spec's words for comparison
with the code (spec 4.2): remove a single `+<tag>` *suffix* (tag = one or
more characters of the class) from the version segment; no `+` suffix means
no change. -/
def stripLocalTagSpec (seg : Str) : Str :=
  let r := seg.reverse
  let t := r.takeWhile isTagChar
  if t ≠ [] ∧ r.getD t.length ' ' = '+' then (r.drop (t.length + 1)).reverse
  else seg

/-- Spec-described `sanitizeArchiveFilename` (spec 4.2), for comparison with
`sanitize_wheel_filename`. -/
def sanitizeArchiveFilenameSpec (filename : Str) : Except PyError Str :=
  let parts := splitDash filename
  if parts.length < 2 then
    .error (.valueError (tl "Invalid wheel filename: " ++ filename))
  else
    .ok (joinDash (parts.set 1 (stripLocalTagSpec (parts.getD 1 []))))

/-- No occurrence of a `+` immediately followed by a tag character (i.e. the
`re.sub` pattern has no match left). -/
def noPlusTag : Str → Bool
  | [] => true
  | [_] => true
  | a :: b :: rest => !(a == '+' && isTagChar b) && noPlusTag (b :: rest)

theorem subPlusTagF_sublist (fuel : Nat) (s : Str) :
    (subPlusTagF fuel s).Sublist s := by
  induction fuel, s using subPlusTagF.induct with
  | case1 n => rw [subPlusTagF]
  | case2 s hne => rw [subPlusTagF]; exact hne
  | case3 fuel c rest h ih =>
      rw [subPlusTagF, if_pos h]
      exact ((ih.trans (List.dropWhile_sublist isTagChar)).trans
        (List.sublist_cons_self c rest))
  | case4 fuel c rest h ih =>
      rw [subPlusTagF, if_neg h]
      exact ih.cons₂ c

theorem subPlusTag_sublist (s : Str) : (subPlusTag s).Sublist s :=
  subPlusTagF_sublist _ _

theorem noPlusTag_tail {c : Char} {rest : Str} (h : noPlusTag (c :: rest) = true) :
    noPlusTag rest = true := by
  cases rest with
  | nil => rfl
  | cons b t =>
      simp only [noPlusTag, Bool.and_eq_true] at h
      exact h.2

theorem head_dropWhile_not_tag (l : Str) :
    ∀ b ∈ (l.dropWhile isTagChar).head?, isTagChar b = false := by
  induction l with
  | nil => simp
  | cons c t ih =>
      by_cases hc : isTagChar c
      · simpa [List.dropWhile_cons, hc] using ih
      · simp [List.dropWhile_cons, hc]

theorem head_of_takeWhile_nil (l : Str) (h : l.takeWhile isTagChar = []) :
    ∀ b ∈ l.head?, isTagChar b = false := by
  cases l with
  | nil => simp
  | cons c t =>
      by_cases hc : isTagChar c
      · simp [List.takeWhile_cons, hc] at h
      · simp [hc]

theorem subPlusTagF_head (fuel : Nat) (s : Str) :
    (∀ b ∈ s.head?, isTagChar b = false) →
    ∀ b ∈ (subPlusTagF fuel s).head?, isTagChar b = false := by
  induction fuel, s using subPlusTagF.induct with
  | case1 n => intro _; rw [subPlusTagF]; simp
  | case2 s hne =>
      intro hs
      rw [subPlusTagF]
      · exact hs
      · exact hne
  | case3 fuel c rest h ih =>
      intro _
      rw [subPlusTagF, if_pos h]
      exact ih (head_dropWhile_not_tag rest)
  | case4 fuel c rest h ih =>
      intro hs
      rw [subPlusTagF, if_neg h]
      simpa using hs

theorem noPlusTag_cons_of (a : Char) (t : Str)
    (h1 : ∀ b ∈ t.head?, (a == '+' && isTagChar b) = false)
    (h2 : noPlusTag t = true) : noPlusTag (a :: t) = true := by
  cases t with
  | nil => rfl
  | cons b u =>
      simp only [noPlusTag, Bool.and_eq_true, Bool.not_eq_true']
      exact ⟨h1 b (by simp), h2⟩

theorem noPlusTag_subPlusTagF (fuel : Nat) (s : Str) :
    s.length ≤ fuel → noPlusTag (subPlusTagF fuel s) = true := by
  induction fuel, s using subPlusTagF.induct with
  | case1 n => intro _; rw [subPlusTagF]; rfl
  | case2 s hne =>
      intro hf
      simp only [Nat.le_zero, List.length_eq_zero] at hf
      exact absurd hf hne
  | case3 fuel c rest h ih =>
      intro hf
      have hrest : rest.length ≤ fuel := by
        simpa using Nat.le_of_succ_le_succ (by simpa using hf)
      rw [subPlusTagF, if_pos h]
      exact ih (le_trans (List.dropWhile_sublist isTagChar).length_le hrest)
  | case4 fuel c rest h ih =>
      intro hf
      have hrest : rest.length ≤ fuel := by
        simpa using Nat.le_of_succ_le_succ (by simpa using hf)
      rw [subPlusTagF, if_neg h]
      apply noPlusTag_cons_of _ _ _ (ih hrest)
      intro b hb
      by_cases hc : c = '+'
      · subst hc
        have htw : rest.takeWhile isTagChar = [] := by
          by_contra hne
          exact h ⟨rfl, hne⟩
        have := subPlusTagF_head fuel rest (head_of_takeWhile_nil rest htw) b hb
        simp [this]
      · simp [hc]

theorem noPlusTag_subPlusTag (s : Str) : noPlusTag (subPlusTag s) = true :=
  noPlusTag_subPlusTagF _ _ le_rfl

theorem subPlusTagF_eq_of_noPlusTag (fuel : Nat) (s : Str) :
    noPlusTag s = true → subPlusTagF fuel s = s := by
  induction fuel, s using subPlusTagF.induct with
  | case1 n => intro _; rw [subPlusTagF]
  | case2 s hne => intro _; rw [subPlusTagF]; exact hne
  | case3 fuel c rest h ih =>
      intro hnp
      exfalso
      obtain ⟨hc, hne⟩ := h
      subst hc
      cases rest with
      | nil => simp [List.takeWhile] at hne
      | cons b u =>
          by_cases hb : isTagChar b
          · simp [noPlusTag, hb] at hnp
          · simp [List.takeWhile_cons, hb] at hne
  | case4 fuel c rest h ih =>
      intro hnp
      rw [subPlusTagF, if_neg h, ih (noPlusTag_tail hnp)]

theorem subPlusTag_idem (s : Str) : subPlusTag (subPlusTag s) = subPlusTag s :=
  subPlusTagF_eq_of_noPlusTag _ _ (noPlusTag_subPlusTag s)

theorem splitDash_ne_nil (s : Str) : splitDash s ≠ [] := by
  induction s with
  | nil => simp [splitDash]
  | cons c rest ih =>
      by_cases hc : c = '-'
      · simp [splitDash, hc]
      · simp only [splitDash, if_neg hc]
        cases hsp : splitDash rest with
        | nil => simp
        | cons s ss => simp

theorem not_dash_mem_splitDash (s : Str) : ∀ p ∈ splitDash s, '-' ∉ p := by
  induction s with
  | nil =>
      intro p hp
      simp [splitDash] at hp
      simp [hp]
  | cons c rest ih =>
      intro p hp
      by_cases hc : c = '-'
      · simp only [splitDash, if_pos hc, List.mem_cons] at hp
        rcases hp with h | h
        · simp [h]
        · exact ih p h
      · simp only [splitDash, if_neg hc] at hp
        cases hsp : splitDash rest with
        | nil => exact absurd hsp (splitDash_ne_nil rest)
        | cons q qs =>
            rw [hsp] at hp
            simp only [List.mem_cons] at hp
            rcases hp with h | h
            · subst h
              intro hmem
              rcases List.mem_cons.mp hmem with h' | h'
              · exact hc h'.symm
              · exact ih q (by rw [hsp]; exact List.mem_cons_self q qs) h'
            · exact ih p (by rw [hsp]; exact List.mem_cons_of_mem _ h)

theorem splitDash_eq_single (p : Str) (h : '-' ∉ p) : splitDash p = [p] := by
  induction p with
  | nil => rfl
  | cons c t ih =>
      have hc : c ≠ '-' := fun hcc => h (by simp [hcc])
      have hc' : ¬ (c = '-') := hc
      simp only [splitDash, if_neg hc']
      rw [ih (fun hm => h (List.mem_cons_of_mem _ hm))]

theorem splitDash_append_dash (p t : Str) (h : '-' ∉ p) :
    splitDash (p ++ '-' :: t) = p :: splitDash t := by
  induction p with
  | nil => simp [splitDash]
  | cons c q ih =>
      have hc : ¬ (c = '-') := fun hcc => h (by simp [hcc])
      simp only [List.cons_append, splitDash, if_neg hc, List.append_eq]
      rw [ih (fun hm => h (List.mem_cons_of_mem _ hm))]

theorem splitDash_joinDash (ps : List Str) (hne : ps ≠ [])
    (h : ∀ p ∈ ps, '-' ∉ p) : splitDash (joinDash ps) = ps := by
  induction ps with
  | nil => exact absurd rfl hne
  | cons p ps ih =>
      cases ps with
      | nil => exact splitDash_eq_single p (h p (by simp))
      | cons q qs =>
          show splitDash (p ++ '-' :: joinDash (q :: qs)) = _
          rw [splitDash_append_dash p _ (h p (by simp))]
          rw [ih (by simp) (fun r hr => h r (List.mem_cons_of_mem _ hr))]

theorem getD_mem {α : Type} (l : List α) (n : Nat) (d : α) (h : n < l.length) :
    l.getD n d ∈ l := by
  induction l generalizing n with
  | nil => simp at h
  | cons b t ih =>
      cases n with
      | zero => simp [List.getD]
      | succ m =>
          simp only [List.getD_cons_succ]
          exact List.mem_cons_of_mem _ (ih m (by simpa using h))

theorem getD_set_self {α : Type} (l : List α) (n : Nat) (a d : α)
    (h : n < l.length) : (l.set n a).getD n d = a := by
  induction l generalizing n with
  | nil => simp at h
  | cons b t ih =>
      cases n with
      | zero => rfl
      | succ m =>
          simp only [List.set_cons_succ, List.getD_cons_succ]
          exact ih m (by simpa using h)

instance exceptDecEq {ε α : Type} [DecidableEq ε] [DecidableEq α] :
    DecidableEq (Except ε α) := fun a b =>
  match a, b with
  | .ok x, .ok y =>
      if h : x = y then .isTrue (by rw [h]) else .isFalse (by simp [h])
  | .error x, .error y =>
      if h : x = y then .isTrue (by rw [h]) else .isFalse (by simp [h])
  | .ok _, .error _ => .isFalse (by simp)
  | .error _, .ok _ => .isFalse (by simp)

/-- C7 counterexample.  On `pkg-1.0+a+b-py3-none-any.whl` the code's
`sanitize_wheel_filename` removes **every** `+<tag>` occurrence from the
version segment (`1.0+a+b` becomes `1.0`), while the behavior the claim
describes — removing only a single trailing `+<tag>` suffix — would yield
`1.0+a`.  The two disagree, refuting the claim as stated. -/
theorem C7_counterexample :
    sanitize_wheel_filename (tl "pkg-1.0+a+b-py3-none-any.whl") =
      .ok (tl "pkg-1.0-py3-none-any.whl") ∧
    sanitizeArchiveFilenameSpec (tl "pkg-1.0+a+b-py3-none-any.whl") =
      .ok (tl "pkg-1.0+a-py3-none-any.whl") ∧
    sanitize_wheel_filename (tl "pkg-1.0+a+b-py3-none-any.whl") ≠
      sanitizeArchiveFilenameSpec (tl "pkg-1.0+a+b-py3-none-any.whl") := by
  refine ⟨by decide, by decide, by decide⟩

/-- C7 (amended): `sanitize_wheel_filename` splits on `-`; with fewer than
two segments it fails with the Naming Error; otherwise it deletes from
segment index 1 every non-overlapping occurrence of `+` followed by a
maximal nonempty run of `[A-Za-z0-9_.]` characters (not only a trailing
suffix), leaving no such occurrence and deleting only characters (the new
segment is a sublist of the old one), and rejoins the segments with `-`. -/
theorem C7_sanitize_behavior (f : Str) :
    sanitize_wheel_filename f =
      (if (splitDash f).length < 2 then
        .error (.valueError (tl "Invalid wheel filename: " ++ f))
      else
        .ok (joinDash ((splitDash f).set 1
          (subPlusTag ((splitDash f).getD 1 []))))) ∧
    noPlusTag (subPlusTag ((splitDash f).getD 1 [])) = true ∧
    (subPlusTag ((splitDash f).getD 1 [])).Sublist ((splitDash f).getD 1 []) :=
  ⟨rfl, noPlusTag_subPlusTag _, subPlusTag_sublist _⟩

/-- C8: for every filename with at least two dash-separated segments,
`sanitize_wheel_filename` is idempotent: the sanitized name sanitizes to
itself. -/
theorem C8_sanitize_idempotent (f : Str) (h2 : 2 ≤ (splitDash f).length) :
    (sanitize_wheel_filename f).bind sanitize_wheel_filename =
      sanitize_wheel_filename f := by
  have hnlt : ¬ (splitDash f).length < 2 := not_lt.mpr h2
  have h1pos : 1 < (splitDash f).length := h2
  have hok : sanitize_wheel_filename f =
      .ok (joinDash ((splitDash f).set 1
        (subPlusTag ((splitDash f).getD 1 [])))) := by
    simp [sanitize_wheel_filename, hnlt]
  rw [hok]
  show sanitize_wheel_filename
      (joinDash ((splitDash f).set 1 (subPlusTag ((splitDash f).getD 1 [])))) =
    .ok (joinDash ((splitDash f).set 1 (subPlusTag ((splitDash f).getD 1 []))))
  have hsplit : splitDash (joinDash ((splitDash f).set 1
      (subPlusTag ((splitDash f).getD 1 [])))) =
      (splitDash f).set 1 (subPlusTag ((splitDash f).getD 1 [])) := by
    apply splitDash_joinDash
    · intro hnil
      have := congrArg List.length hnil
      simp only [List.length_set, List.length_nil] at this
      omega
    · intro p hp
      rcases List.mem_or_eq_of_mem_set hp with hmem | rfl
      · exact not_dash_mem_splitDash f p hmem
      · intro hdash
        have hseg : '-' ∈ (splitDash f).getD 1 [] :=
          (subPlusTag_sublist _).subset hdash
        exact not_dash_mem_splitDash f _ (getD_mem _ _ _ h1pos) hseg
  have hlen : ¬ (splitDash (joinDash ((splitDash f).set 1
      (subPlusTag ((splitDash f).getD 1 []))))).length < 2 := by
    rw [hsplit, List.length_set]
    exact hnlt
  simp only [sanitize_wheel_filename, hsplit, hlen, if_neg, ite_false,
    getD_set_self _ _ _ _ h1pos, subPlusTag_idem, List.set_set]
  rw [if_neg (by rw [List.length_set]; exact hnlt)]

/-- Witness for C8 at a concrete valid wheel filename. -/
theorem C8_sanitize_idempotent_witness :
    2 ≤ (splitDash (tl "pkg-1.0+cu126-py3-none-any.whl")).length ∧
    (sanitize_wheel_filename (tl "pkg-1.0+cu126-py3-none-any.whl")).bind
        sanitize_wheel_filename =
      sanitize_wheel_filename (tl "pkg-1.0+cu126-py3-none-any.whl") :=
  ⟨by decide, C8_sanitize_idempotent _ (by decide)⟩

/-- Python `s.endswith(old)`. -/
def endsWithS (s old : Str) : Bool :=
  if old.length ≤ s.length then s.drop (s.length - old.length) == old
  else false

/-- `replace_from_end` (build.py 145-151): replace `old` with `new` only if
`s` ends with `old` (Python slices off `len(old)` characters from the end
when `old` is nonempty; the emptiness guard mirrors `if old`). -/
def replace_from_end (s old new : Str) : Str :=
  if endsWithS s old then
    if old ≠ [] then s.take (s.length - old.length) ++ new else s ++ new
  else s

theorem endsWithS_iff (s old : Str) :
    endsWithS s old = true ↔ ∃ t, s = t ++ old := by
  unfold endsWithS
  by_cases h : old.length ≤ s.length
  · simp only [if_pos h, beq_iff_eq]
    constructor
    · intro hd
      exact ⟨s.take (s.length - old.length),
        by conv_lhs => rw [← List.take_append_drop (s.length - old.length) s, hd]⟩
    · rintro ⟨t, rfl⟩
      rw [List.length_append, Nat.add_sub_cancel, List.drop_left]
  · simp only [if_neg h, Bool.false_eq_true, false_iff]
    rintro ⟨t, rfl⟩
    rw [List.length_append] at h
    exact h (Nat.le_add_left _ _)

theorem replace_from_end_of_not_ends (s old new : Str)
    (h : endsWithS s old = false) : replace_from_end s old new = s := by
  unfold replace_from_end
  rw [h]
  rfl

theorem replace_from_end_strip (s old : Str) (h : endsWithS s old = true)
    (hne : old ≠ []) : replace_from_end s old [] ++ old = s := by
  obtain ⟨t, rfl⟩ := (endsWithS_iff s old).mp h
  unfold replace_from_end
  rw [if_pos h, if_pos hne, List.length_append,
    Nat.add_sub_cancel, List.take_left, List.append_nil]

/-- `normalize_patterns` (build.py 193-207), in source order. -/
def normalize_patterns : List Str :=
  [tl "cu11", tl "cu12", tl "cu13", tl "cu118", tl "cu126", tl "cu128",
   tl "cu129", tl "cuda11x", tl "cuda12x", tl "cuda13x", tl "cpu"]

/-- The name-normalization loop of `repack_variant` (build.py 211-213): for
each pattern in order, strip a trailing `-pattern`, then a trailing
`_pattern`, from the current name. -/
def normalizeName (name : Str) : Str :=
  normalize_patterns.foldl
    (fun n p => replace_from_end (replace_from_end n ('-' :: p) []) ('_' :: p) [])
    name

/-- C6: name normalization folds the fixed-order pattern list over the name,
trying each pattern with both the `-` and the `_` separator; each separated
pattern is applied by `replace_from_end`, which leaves the name unchanged
unless the pattern matches the current end and otherwise strips exactly that
one suffix occurrence; distinct patterns strip cumulatively, e.g. a name
ending `_cpu-cu12` loses both `-cu12` and `_cpu` in one call. -/
theorem C6_normalization_cumulative :
    (∀ s old new, endsWithS s old = false → replace_from_end s old new = s) ∧
    (∀ s old, endsWithS s old = true → old ≠ [] →
      replace_from_end s old [] ++ old = s) ∧
    (∀ name, normalizeName name =
      normalize_patterns.foldl
        (fun n p =>
          replace_from_end (replace_from_end n ('-' :: p) []) ('_' :: p) [])
        name) ∧
    normalizeName (tl "mypkg_cpu-cu12") = tl "mypkg" ∧
    normalizeName (tl "torch") = tl "torch" :=
  ⟨replace_from_end_of_not_ends, replace_from_end_strip,
    fun _ => rfl, by decide, by decide⟩

/-- Witness for C6, applying its general parts at concrete inputs
(`hello` does not end with `_cpu`; `hello_cpu` does). -/
theorem C6_normalization_cumulative_witness :
    replace_from_end (tl "hello") (tl "_cpu") [] = tl "hello" ∧
    replace_from_end (tl "hello_cpu") (tl "_cpu") [] ++ tl "_cpu" =
      tl "hello_cpu" :=
  ⟨C6_normalization_cumulative.1 _ _ _ (by decide),
    C6_normalization_cumulative.2.1 _ _ (by decide) (by decide)⟩

/-- The metadata record parsed by `repack_variant`: the `Name` and `Version`
headers, the ordered `Requires-Dist` values, and the remaining headers,
which pass through untouched and are modelled opaquely. -/
structure Metadata where
  name : Str
  version : Str
  requiresDist : List Str
  otherFields : List (Str × Str) := []
deriving Repr, DecidableEq

/-- The typed view of a `metadata_configs` entry, with the defaults used by
the `.get(key, default)` reads in `repack_variant` (absent key = default). -/
structure MetadataConfig where
  renamePackageTo : Option Str := none
  normalizePackageName : Bool := false
  normalizeVersion : Bool := false
  depsRemoveList : List Str := []
  depsAddList : List Str := []
deriving Repr, DecidableEq

/-- A `{namespace, feature, value}` property triple of a `variant_configs`
entry (`nspace` stands for the `namespace` key, a reserved word here). -/
structure VariantProperty where
  nspace : Str
  feature : Str
  value : Str
deriving Repr, DecidableEq

/-- The typed view of a `variant_configs` entry. -/
structure VariantConfig where
  variantLabel : Option Str := none
  properties : List VariantProperty := []
deriving Repr, DecidableEq

/-- Lexicographic (code-point) comparison `a <= b` of Python strings. -/
def strLe : Str → Str → Bool
  | [], _ => true
  | _ :: _, [] => false
  | a :: as, b :: bs =>
    if a.toNat < b.toNat then true
    else if b.toNat < a.toNat then false
    else strLe as bs

/-- `strLe` as a relation. -/
def strLeP (a b : Str) : Prop := strLe a b = true

instance : DecidableRel strLeP := fun a b => instDecidableEqBool (strLe a b) true

theorem strLe_cons_iff (x y : Char) (xs ys : Str) :
    strLe (x :: xs) (y :: ys) = true ↔
      x.toNat < y.toNat ∨ (x.toNat = y.toNat ∧ strLe xs ys = true) := by
  rcases Nat.lt_trichotomy x.toNat y.toNat with h | h | h
  · simp [strLe, h]
  · simp [strLe, h]
  · have h1 : ¬ x.toNat < y.toNat := Nat.lt_asymm h
    have h2 : x.toNat ≠ y.toNat := ne_of_gt h
    simp [strLe, h, h1, h2]

theorem strLe_total (a b : Str) : strLe a b = true ∨ strLe b a = true := by
  induction a generalizing b with
  | nil => left; rfl
  | cons x xs ih =>
      cases b with
      | nil => right; rfl
      | cons y ys =>
          rcases Nat.lt_trichotomy x.toNat y.toNat with h | h | h
          · left; exact (strLe_cons_iff _ _ _ _).mpr (Or.inl h)
          · rcases ih ys with h' | h'
            · left; exact (strLe_cons_iff _ _ _ _).mpr (Or.inr ⟨h, h'⟩)
            · right; exact (strLe_cons_iff _ _ _ _).mpr (Or.inr ⟨h.symm, h'⟩)
          · right; exact (strLe_cons_iff _ _ _ _).mpr (Or.inl h)

theorem strLe_trans (a b c : Str) (h1 : strLe a b = true)
    (h2 : strLe b c = true) : strLe a c = true := by
  induction a generalizing b c with
  | nil => rfl
  | cons x xs ih =>
      cases b with
      | nil => simp [strLe] at h1
      | cons y ys =>
          cases c with
          | nil => simp [strLe] at h2
          | cons z zs =>
              rcases (strLe_cons_iff _ _ _ _).mp h1 with hxy | ⟨hxy, hxs⟩ <;>
                rcases (strLe_cons_iff _ _ _ _).mp h2 with hyz | ⟨hyz, hys⟩
              · exact (strLe_cons_iff _ _ _ _).mpr (Or.inl (lt_trans hxy hyz))
              · exact (strLe_cons_iff _ _ _ _).mpr (Or.inl (hyz ▸ hxy))
              · exact (strLe_cons_iff _ _ _ _).mpr (Or.inl (hxy ▸ hyz))
              · exact (strLe_cons_iff _ _ _ _).mpr
                  (Or.inr ⟨hxy.trans hyz, ih ys zs hxs hys⟩)

instance : IsTotal Str strLeP := ⟨fun a b => strLe_total a b⟩

instance : IsTrans Str strLeP := ⟨fun a b c => strLe_trans a b c⟩

/-- Python `sorted` on a list of strings.  Python's sort is stable, but
code-point lexicographic order is antisymmetric — strings comparing equal
are identical — so the sorted permutation is unique and any correct sort
computes it; insertion sort is used because Mathlib proves it yields a
sorted permutation. -/
def pySorted (l : List Str) : List Str := List.insertionSort strLeP l

/-- Python `s.split("-", maxsplit=1)` destructured into two parts: the part
before the first dash and everything after it; `none` when there is no dash
(where Python's 2-tuple unpacking raises ValueError). -/
def splitFirstDash : Str → Option (Str × Str)
  | [] => none
  | c :: rest =>
    if c = '-' then some ([], rest)
    else (splitFirstDash rest).map (fun q => (c :: q.1, q.2))

/-- Python `str.replace("-", "_")`. -/
def dashToUnderscore (s : Str) : Str :=
  s.map (fun c => if c = '-' then '_' else c)

/-- `rename_package` (build.py 66-89): set the record's Name header to the
new package name and rename the dist-info directory to the underscored new
name, keeping the version component of the old directory name (everything
after its first dash) verbatim.  Returns the new directory name and record;
`none` models the ValueError Python's tuple unpacking raises when the old
directory name contains no dash. -/
def rename_package (distInfoDirName : Str) (md : Metadata) (newPkgName : Str) :
    Option (Str × Metadata) :=
  (splitFirstDash distInfoDirName).map fun q =>
    (dashToUnderscore newPkgName ++ '-' :: q.2, { md with name := newPkgName })

/-- Lift `rename_package` into the error monad. -/
def renameOrError (dirName : Str) (md : Metadata) (newName : Str) :
    Except PyError (Str × Metadata) :=
  match rename_package dirName md newName with
  | some r => .ok r
  | none => .error (.valueError (tl "not enough values to unpack"))

/-- Python truthiness of `metadata_config.get("rename_package_to", False)`:
the walrus test takes the rename branch only for a present, nonempty name. -/
def truthyRename (o : Option Str) : Option Str :=
  match o with
  | some n => if n = [] then none else some n
  | none => none

/-- The record/directory transformation of `repack_variant`
(build.py 154-250), given the already-resolved metadata profile: the rename
step (explicit rename, else name normalization, else untouched), then
version normalization (`Version` truncated at the first `+`), then the
dependency rewrite (drop values starting with a remove-list entry, append
the add list, sort lexicographically).  Returns the final dist-info
directory name and the record written back. -/
def repack_variant_core (mcfg : MetadataConfig) (dirName : Str)
    (md : Metadata) : Except PyError (Str × Metadata) :=
  match (match truthyRename mcfg.renamePackageTo with
         | some newName => renameOrError dirName md newName
         | none =>
           if mcfg.normalizePackageName then
             renameOrError dirName md (normalizeName md.name)
           else .ok (dirName, md)) with
  | .error e => .error e
  | .ok (dirName1, md1) =>
    let md2 := if mcfg.normalizeVersion then
        { md1 with version := md1.version.takeWhile (fun c => c ≠ '+') }
      else md1
    let outDeps := pySorted ((md2.requiresDist.filter
        (fun dep => !(mcfg.depsRemoveList.any (fun d => d.isPrefixOf dep)))) ++
      mcfg.depsAddList)
    .ok (dirName1, { md2 with requiresDist := outDeps })

/-- Drop the `.dist-info` suffix (10 characters) of a directory name. -/
def stripDistInfoSuffix (s : Str) : Str := s.take (s.length - 10)

theorem not_dash_dashToUnderscore (s : Str) : '-' ∉ dashToUnderscore s := by
  intro h
  rw [dashToUnderscore, List.mem_map] at h
  obtain ⟨c, _, hc⟩ := h
  by_cases h' : c = '-' <;> simp [h'] at hc

theorem splitFirstDash_append (p t : Str) (h : '-' ∉ p) :
    splitFirstDash (p ++ '-' :: t) = some (p, t) := by
  induction p with
  | nil => simp [splitFirstDash]
  | cons c q ih =>
      have hc : ¬ (c = '-') := fun hcc => h (by simp [hcc])
      simp only [List.cons_append, splitFirstDash, if_neg hc, List.append_eq,
        ih (fun hm => h (List.mem_cons_of_mem _ hm)), Option.map_some']

theorem renameOrError_ok (dirName : Str) (md : Metadata) (newName : Str)
    (r : Str × Metadata) (h : renameOrError dirName md newName = .ok r) :
    ∃ pre post, splitFirstDash dirName = some (pre, post) ∧
      r.1 = dashToUnderscore newName ++ '-' :: post ∧
      r.2 = { md with name := newName } := by
  unfold renameOrError rename_package at h
  cases hsp : splitFirstDash dirName with
  | none =>
      rw [hsp] at h
      exact Except.noConfusion h
  | some q =>
      rw [hsp] at h
      simp only [Option.map_some'] at h
      have := Except.ok.inj h
      exact ⟨q.1, q.2, rfl, by rw [← this], by rw [← this]⟩

theorem repack_core_shape (mcfg : MetadataConfig) (dirName : Str)
    (md : Metadata) (r : Str × Metadata)
    (h : repack_variant_core mcfg dirName md = .ok r) :
    ∃ dn1 md1,
      ((∃ newName, truthyRename mcfg.renamePackageTo = some newName ∧
          renameOrError dirName md newName = .ok (dn1, md1)) ∨
        (truthyRename mcfg.renamePackageTo = none ∧
          mcfg.normalizePackageName = true ∧
          renameOrError dirName md (normalizeName md.name) = .ok (dn1, md1)) ∨
        (truthyRename mcfg.renamePackageTo = none ∧
          mcfg.normalizePackageName = false ∧ dn1 = dirName ∧ md1 = md)) ∧
      r.1 = dn1 ∧
      r.2.name = md1.name ∧
      r.2.version = (if mcfg.normalizeVersion = true then
          md1.version.takeWhile (fun c => c ≠ '+')
        else md1.version) ∧
      r.2.requiresDist = pySorted ((md1.requiresDist.filter
        (fun dep => !(mcfg.depsRemoveList.any (fun d => d.isPrefixOf dep)))) ++
        mcfg.depsAddList) ∧
      r.2.otherFields = md1.otherFields := by
  unfold repack_variant_core at h
  split at h
  · exact Except.noConfusion h
  next dn1 md1 heq =>
    simp only [Except.ok.injEq] at h
    subst h
    refine ⟨dn1, md1, ?_, rfl, ?_, ?_, ?_, ?_⟩
    · split at heq
      next newName htr => exact Or.inl ⟨newName, htr, heq⟩
      next htr =>
        split at heq
        next hn =>
          exact Or.inr (Or.inl ⟨htr, hn, heq⟩)
        next hn =>
          obtain ⟨h1, h2⟩ := Prod.mk.injEq _ _ _ _ ▸ Except.ok.inj heq
          exact Or.inr (Or.inr ⟨htr, by simpa using hn, h1.symm, h2.symm⟩)
    · by_cases hv : mcfg.normalizeVersion = true <;> simp [hv]
    · by_cases hv : mcfg.normalizeVersion = true <;> simp [hv]
    · by_cases hv : mcfg.normalizeVersion = true <;> simp [hv]
    · by_cases hv : mcfg.normalizeVersion = true <;> simp [hv]

/-- C2: the dependency rewrite of `repack_variant` keeps exactly the original
`Requires-Dist` values that do not start with a remove-list entry, appends
every add-list entry (no deduplication), and writes the whole list back
sorted lexicographically; in particular remove=`["old"]`, add=`["new"]` on
`["old-thing", "keep"]` yields exactly `["keep", "new"]`, and a value in
both the surviving originals and the add list appears twice. -/
theorem C2_dependency_rewrite :
    (∀ (mcfg : MetadataConfig) (dirName : Str) (md : Metadata)
        (r : Str × Metadata),
      repack_variant_core mcfg dirName md = .ok r →
      r.2.requiresDist.Perm
        ((md.requiresDist.filter
          (fun dep =>
            !(mcfg.depsRemoveList.any (fun d => d.isPrefixOf dep)))) ++
          mcfg.depsAddList) ∧
      List.Sorted strLeP r.2.requiresDist) ∧
    (repack_variant_core
        { depsRemoveList := [tl "old"], depsAddList := [tl "new"] }
        (tl "pkg-1.0.dist-info")
        { name := tl "pkg", version := tl "1.0",
          requiresDist := [tl "old-thing", tl "keep"] }).map
      (fun r => r.2.requiresDist) = .ok [tl "keep", tl "new"] ∧
    (repack_variant_core { depsAddList := [tl "keep"] }
        (tl "pkg-1.0.dist-info")
        { name := tl "pkg", version := tl "1.0",
          requiresDist := [tl "keep"] }).map
      (fun r => r.2.requiresDist) = .ok [tl "keep", tl "keep"] := by
  refine ⟨?_, by decide, by decide⟩
  intro mcfg dirName md r h
  obtain ⟨dn1, md1, hbr, _, _, _, hreq, _⟩ :=
    repack_core_shape mcfg dirName md r h
  have hdeps : md1.requiresDist = md.requiresDist := by
    rcases hbr with ⟨n, _, hre⟩ | ⟨_, _, hre⟩ | ⟨_, _, _, hmd⟩
    · obtain ⟨pre, post, _, _, h2⟩ := renameOrError_ok _ _ _ _ hre
      rw [show md1 = { md with name := n } from h2]
    · obtain ⟨pre, post, _, _, h2⟩ := renameOrError_ok _ _ _ _ hre
      rw [show md1 = { md with name := normalizeName md.name } from h2]
    · rw [hmd]
  rw [hreq, hdeps]
  exact ⟨List.perm_insertionSort strLeP _, List.sorted_insertionSort strLeP _⟩

/-- Witness for C2: its general part at the spec's concrete example. -/
theorem C2_dependency_rewrite_witness :
    ([tl "keep", tl "new"] : List Str).Perm
      (([tl "old-thing", tl "keep"].filter
        (fun dep => !([tl "old"].any (fun d => d.isPrefixOf dep)))) ++
        [tl "new"]) ∧
    List.Sorted strLeP [tl "keep", tl "new"] :=
  C2_dependency_rewrite.1
    { depsRemoveList := [tl "old"], depsAddList := [tl "new"] }
    (tl "pkg-1.0.dist-info")
    { name := tl "pkg", version := tl "1.0",
      requiresDist := [tl "old-thing", tl "keep"] }
    (tl "pkg-1.0.dist-info",
      { name := tl "pkg", version := tl "1.0",
        requiresDist := [tl "keep", tl "new"] })
    (by decide)

/-- C3: whenever the metadata rewrite renames the package — an explicit
nonempty `rename_package_to`, which takes precedence over
`normalize_package_name`, or name normalization when no truthy explicit
rename is given — the record's Name becomes the new name and the renamed
dist-info directory is exactly the new Name with `-` mapped to `_`,
followed by `-` and the version component kept from the old directory name;
concretely `rename_package_to="foo"` on Name `bar` turns
`bar-1.0.0.dist-info` into `foo-1.0.0.dist-info` with Name `foo`. -/
theorem C3_rename_directory_invariant :
    (∀ (mcfg : MetadataConfig) (dirName : Str) (md : Metadata)
        (r : Str × Metadata) (newName : Str),
      repack_variant_core mcfg dirName md = .ok r →
      ((mcfg.renamePackageTo = some newName ∧ newName ≠ []) ∨
        (truthyRename mcfg.renamePackageTo = none ∧
          mcfg.normalizePackageName = true ∧
          newName = normalizeName md.name)) →
      r.2.name = newName ∧
      ∃ pre post, splitFirstDash dirName = some (pre, post) ∧
        r.1 = dashToUnderscore newName ++ '-' :: post ∧
        splitFirstDash r.1 = some (dashToUnderscore r.2.name, post)) ∧
    (repack_variant_core { renamePackageTo := some (tl "foo") }
        (tl "bar-1.0.0.dist-info")
        { name := tl "bar", version := tl "1.0.0", requiresDist := [] }).map
      (fun r => (r.1, r.2.name)) =
      .ok (tl "foo-1.0.0.dist-info", tl "foo") := by
  refine ⟨?_, by decide⟩
  intro mcfg dirName md r newName h hcase
  obtain ⟨dn1, md1, hbr, h1, hname, _, _, _⟩ :=
    repack_core_shape mcfg dirName md r h
  have hre : renameOrError dirName md newName = .ok (dn1, md1) := by
    rcases hcase with ⟨hrn, hne⟩ | ⟨htn, hn, hnew⟩
    · have htr : truthyRename mcfg.renamePackageTo = some newName := by
        rw [hrn]
        simp [truthyRename, hne]
      rcases hbr with ⟨n', htr', hre'⟩ | ⟨htn', _, _⟩ | ⟨htn', _, _, _⟩
      · rw [htr] at htr'
        injection htr' with hh
        subst hh
        exact hre'
      · rw [htn'] at htr
        exact Option.noConfusion htr
      · rw [htn'] at htr
        exact Option.noConfusion htr
    · rcases hbr with ⟨n', htr', _⟩ | ⟨_, _, hre'⟩ | ⟨_, hn', _, _⟩
      · rw [htn] at htr'
        exact Option.noConfusion htr'
      · rw [← hnew] at hre'
        exact hre'
      · rw [hn] at hn'
        exact Bool.noConfusion hn'
  obtain ⟨pre, post, hsp, hdir, hmd⟩ := renameOrError_ok _ _ _ _ hre
  have hname' : r.2.name = newName := by
    rw [hname, show md1 = { md with name := newName } from hmd]
  refine ⟨hname', pre, post, hsp, ?_, ?_⟩
  · rw [h1, show dn1 = dashToUnderscore newName ++ '-' :: post from hdir]
  · rw [h1, show dn1 = dashToUnderscore newName ++ '-' :: post from hdir,
      hname']
    exact splitFirstDash_append _ _ (not_dash_dashToUnderscore newName)

/-- Witness for C3: its general part at the concrete rename example. -/
theorem C3_rename_directory_invariant_witness :
    (tl "foo" : Str) = tl "foo" ∧
    ∃ pre post,
      splitFirstDash (tl "bar-1.0.0.dist-info") = some (pre, post) ∧
      tl "foo-1.0.0.dist-info" = dashToUnderscore (tl "foo") ++ '-' :: post ∧
      splitFirstDash (tl "foo-1.0.0.dist-info") =
        some (dashToUnderscore (tl "foo"), post) :=
  C3_rename_directory_invariant.1 { renamePackageTo := some (tl "foo") }
    (tl "bar-1.0.0.dist-info")
    { name := tl "bar", version := tl "1.0.0", requiresDist := [] }
    (tl "foo-1.0.0.dist-info",
      { name := tl "foo", version := tl "1.0.0", requiresDist := [] })
    (tl "foo") (by decide) (Or.inl ⟨rfl, by decide⟩)

/-- C10: `rename_package` copies the version component of the dist-info
directory name verbatim from the old directory name (everything after its
first dash) and never reads the record's Version (the produced directory
name is the same for any two records); hence a standalone rewrite with a
rename plus `normalize_version` on a directory still carrying a `+local`
segment leaves the directory's version component (`1.0.0+cu126`) different
from the rewritten record's Version (`1.0.0`). -/
theorem C10_version_component_frame :
    (∀ (dirName : Str) (md : Metadata) (newName : Str) (r : Str × Metadata),
      rename_package dirName md newName = some r →
      ∃ pre post, splitFirstDash dirName = some (pre, post) ∧
        r.1 = dashToUnderscore newName ++ '-' :: post ∧
        r.2.version = md.version) ∧
    (∀ (dirName : Str) (mdA mdB : Metadata) (newName : Str),
      (rename_package dirName mdA newName).map (fun r => r.1) =
        (rename_package dirName mdB newName).map (fun r => r.1)) ∧
    (repack_variant_core
        { renamePackageTo := some (tl "foo"), normalizeVersion := true }
        (tl "bar-1.0.0+cu126.dist-info")
        { name := tl "bar", version := tl "1.0.0+cu126",
          requiresDist := [] }).map
      (fun r => (r.1, r.2.version)) =
      .ok (tl "foo-1.0.0+cu126.dist-info", tl "1.0.0") ∧
    stripDistInfoSuffix (tl "1.0.0+cu126.dist-info") ≠ (tl "1.0.0") := by
  refine ⟨?_, ?_, by decide, by decide⟩
  · intro dirName md newName r h
    unfold rename_package at h
    cases hsp : splitFirstDash dirName with
    | none =>
        rw [hsp] at h
        exact Option.noConfusion h
    | some q =>
        rw [hsp, Option.map_some'] at h
        obtain rfl := Option.some.inj h
        exact ⟨q.1, q.2, rfl, rfl, rfl⟩
  · intro dirName mdA mdB newName
    unfold rename_package
    cases splitFirstDash dirName <;> rfl

/-- Witness for C10: its first part at the concrete rename example. -/
theorem C10_version_component_frame_witness :
    ∃ pre post,
      splitFirstDash (tl "bar-1.0.0+cu126.dist-info") = some (pre, post) ∧
      tl "foo-1.0.0+cu126.dist-info" =
        dashToUnderscore (tl "foo") ++ '-' :: post ∧
      (tl "1.0.0+cu126" : Str) = tl "1.0.0+cu126" :=
  C10_version_component_frame.1 (tl "bar-1.0.0+cu126.dist-info")
    { name := tl "bar", version := tl "1.0.0+cu126", requiresDist := [] }
    (tl "foo")
    (tl "foo-1.0.0+cu126.dist-info",
      { name := tl "foo", version := tl "1.0.0+cu126", requiresDist := [] })
    (by decide)

/-- A parsed configuration file: the two optional top-level tables, each an
association list from profile name to the typed profile (in file order);
`none` models an absent table, read back as `{}` by
`config.get("...", {})`. -/
structure ConfigFile where
  metadata_configs : Option (List (Str × MetadataConfig)) := none
  variant_configs : Option (List (Str × VariantConfig)) := none
deriving Repr, DecidableEq

/-- Python `table[name]` on an association-list table. -/
def lookupTable {α : Type} (tbl : List (Str × α)) (k : Str) : Option α :=
  (tbl.find? (fun e => e.1 == k)).map (fun e => e.2)

/-- One profile-resolution block of `read_configuration` (build.py 101-135):
a given name is looked up in the (possibly absent, hence empty) table and a
miss raises `KeyError` carrying the missing name and the available names;
an omitted name resolves to the empty profile. -/
def resolveName {α : Type} (emptyProfile : α) (tableName : Str)
    (tbl : List (Str × α)) (name : Option Str) : Except PyError α :=
  match name with
  | some n =>
    match lookupTable tbl n with
    | some v => .ok v
    | none => .error (PyError.keyError tableName n (tbl.map (fun e => e.1)))
  | none => .ok emptyProfile

/-- The pure body of `read_configuration` (build.py 101-142) on an
already-parsed configuration file (the `tomllib.load` and the `lru_cache`
wrapper are modelled separately): resolve the metadata profile, then the
variant profile, each via `resolveName`. -/
def read_configuration_pure (config : ConfigFile)
    (metadata_config_name variant_config_name : Option Str) :
    Except PyError (MetadataConfig × VariantConfig) :=
  match resolveName {} (tl "metadata_configs")
      (config.metadata_configs.getD []) metadata_config_name with
  | .error e => .error e
  | .ok metadata_config =>
    match resolveName {} (tl "variant_configs")
        (config.variant_configs.getD []) variant_config_name with
    | .error e => .error e
    | .ok variant_config => .ok (metadata_config, variant_config)

/-- C5: a given-but-absent profile name — whether the top-level table is
missing (read as the empty table) or the named entry is missing — makes the
resolver fail with the KeyError that names the missing profile and lists the
names actually available in that table; an omitted (None) name instead
resolves to the empty mapping for that profile without error. -/
theorem C5_resolver_missing_name :
    (∀ (config : ConfigFile) (n : Str) (vn : Option Str),
      lookupTable (config.metadata_configs.getD []) n = none →
      read_configuration_pure config (some n) vn =
        .error (.keyError (tl "metadata_configs") n
          ((config.metadata_configs.getD []).map (fun e => e.1)))) ∧
    (∀ (config : ConfigFile) (mn : Option Str) (n : Str),
      (mn = none ∨ ∃ n0 mc, mn = some n0 ∧
        lookupTable (config.metadata_configs.getD []) n0 = some mc) →
      lookupTable (config.variant_configs.getD []) n = none →
      read_configuration_pure config mn (some n) =
        .error (.keyError (tl "variant_configs") n
          ((config.variant_configs.getD []).map (fun e => e.1)))) ∧
    (∀ (config : ConfigFile) (vn : Option Str) (p : MetadataConfig × VariantConfig),
      read_configuration_pure config none vn = .ok p → p.1 = {}) ∧
    (∀ (config : ConfigFile) (mn : Option Str) (p : MetadataConfig × VariantConfig),
      read_configuration_pure config mn none = .ok p → p.2 = {}) ∧
    read_configuration_pure {} (some (tl "missing")) none =
      .error (.keyError (tl "metadata_configs") (tl "missing") []) := by
  refine ⟨?_, ?_, ?_, ?_, by decide⟩
  · intro config n vn hmiss
    simp only [read_configuration_pure, resolveName, hmiss]
  · intro config mn n hmeta hmiss
    rcases hmeta with rfl | ⟨n0, mc, rfl, hfound⟩
    · simp only [read_configuration_pure, resolveName, hmiss]
    · simp only [read_configuration_pure, resolveName, hmiss, hfound]
  · intro config vn p h
    unfold read_configuration_pure at h
    split at h
    · exact Except.noConfusion h
    next mdc heq =>
      have hmd : mdc = ({} : MetadataConfig) := by
        simp only [resolveName] at heq
        exact (Except.ok.inj heq).symm
      split at h
      · exact Except.noConfusion h
      next vc heq2 =>
        have hp := Except.ok.inj h
        rw [← hp, hmd]
  · intro config mn p h
    unfold read_configuration_pure at h
    split at h
    · exact Except.noConfusion h
    next mdc heq =>
      split at h
      · exact Except.noConfusion h
      next vc heq2 =>
        have hvc : vc = ({} : VariantConfig) := by
          simp only [resolveName] at heq2
          exact (Except.ok.inj heq2).symm
        have hp := Except.ok.inj h
        rw [← hp, hvc]

/-- Witness for C5: the resolver on a file whose `metadata_configs` table
holds only `default`, queried for `missing`. -/
theorem C5_resolver_missing_name_witness :
    read_configuration_pure
      { metadata_configs := some [(tl "default", {})] }
      (some (tl "missing")) none =
      .error (.keyError (tl "metadata_configs") (tl "missing")
        [tl "default"]) :=
  C5_resolver_missing_name.1
    { metadata_configs := some [(tl "default", {})] }
    (tl "missing") none (by decide)

/-- The argument triple of `read_configuration`: configuration-file path and
the two optional profile names. -/
abbrev ConfigKey := Str × Option Str × Option Str

/-- `functools.lru_cache` applied bare (build.py line 92) keeps its default
`maxsize=128`. -/
def lruMaxsize : Nat := 128

/-- Process state of the memoized `read_configuration`: the LRU cache
(most-recently-used entry first) and a count of how many times the
configuration file has been opened and parsed. -/
structure ResolverState where
  cache : List (ConfigKey × (MetadataConfig × VariantConfig)) := []
  readCount : Nat := 0
deriving Repr, DecidableEq

/-- Cache lookup. -/
def lruFind (cache : List (ConfigKey × (MetadataConfig × VariantConfig)))
    (k : ConfigKey) : Option (MetadataConfig × VariantConfig) :=
  (cache.find? (fun e => e.1 == k)).map (fun e => e.2)

/-- `lru_cache` bookkeeping: place the entry at the most-recent position
(dropping any older occurrence) and evict the least-recently-used entry once
the cache exceeds `maxsize`. -/
def lruInsert (cache : List (ConfigKey × (MetadataConfig × VariantConfig)))
    (k : ConfigKey) (v : MetadataConfig × VariantConfig) :
    List (ConfigKey × (MetadataConfig × VariantConfig)) :=
  ((k, v) :: cache.filter (fun e => !(e.1 == k))).take lruMaxsize

/-- One call of the memoized `read_configuration` (build.py 92-99): a cached
key is answered without reading the file; otherwise the file at the key's
path is read (counted) and parsed, and a successful result is inserted into
the LRU cache (a raised exception is not cached).  `files` maps each path to
its parsed configuration file. -/
def read_configuration_cached (files : Str → ConfigFile)
    (st : ResolverState) (k : ConfigKey) :
    Except PyError (MetadataConfig × VariantConfig) × ResolverState :=
  match lruFind st.cache k with
  | some v => (.ok v, { st with cache := lruInsert st.cache k v })
  | none =>
    match read_configuration_pure (files k.1) k.2.1 k.2.2 with
    | .ok v =>
      (.ok v,
        { cache := lruInsert st.cache k v, readCount := st.readCount + 1 })
    | .error e => (.error e, { st with readCount := st.readCount + 1 })

/-- Run a sequence of calls, keeping only the final state. -/
def runCalls (files : Str → ConfigFile) (st : ResolverState) :
    List ConfigKey → ResolverState
  | [] => st
  | k :: ks => runCalls files (read_configuration_cached files st k).2 ks

/-- Distinct two-character paths for the C4 counterexample. -/
def c4Key (i : Nat) : ConfigKey :=
  ([Char.ofNat (97 + i % 26), Char.ofNat (97 + i / 26)], none, none)

/-- Every path parses to the empty configuration file (both profile names
omitted, so every call succeeds with the empty mappings). -/
def c4Files : Str → ConfigFile := fun _ => {}

/-- 129 distinct triples, starting with `c4Key 0`. -/
def c4Seq : List ConfigKey := (List.range 129).map c4Key

set_option maxRecDepth 16000 in
set_option maxHeartbeats 1600000 in
/-- C4 counterexample.  `read_configuration` is memoized by a bare
`functools.lru_cache`, whose default `maxsize` is 128, not a process-lifetime
memo: after the 129 distinct successful calls of `c4Seq` (first of them
`c4Key 0`, 129 file reads), the entry for `c4Key 0` has been evicted, so a
second call with the identical triple `c4Key 0` re-reads the file — the read
count rises to 130 — refuting "the second call ... does not re-read the
configuration file ... anywhere in the process lifetime". -/
theorem C4_counterexample :
    c4Seq.getD 0 (c4Key 0) = c4Key 0 ∧
    (runCalls c4Files {} c4Seq).readCount = 129 ∧
    (read_configuration_cached c4Files (runCalls c4Files {} c4Seq)
        (c4Key 0)).1 = .ok ({}, {}) ∧
    (read_configuration_cached c4Files (runCalls c4Files {} c4Seq)
        (c4Key 0)).2.readCount = 130 := by
  refine ⟨by decide, by decide, by decide, by decide⟩

theorem lruFind_lruInsert (cache :
    List (ConfigKey × (MetadataConfig × VariantConfig)))
    (k : ConfigKey) (v : MetadataConfig × VariantConfig) :
    lruFind (lruInsert cache k v) k = some v := by
  unfold lruFind lruInsert
  rw [show lruMaxsize = 127 + 1 from rfl, List.take_succ_cons]
  simp [List.find?]

/-- C4 (amended): memoization is per exact triple but LRU-bounded at 128
entries; in particular any successful call leaves its triple cached, so an
immediately repeated call with the identical triple — the pipeline's actual
pattern, `make_variant` then `repack_variant` resolving the same triple —
returns the identical value and performs no new file read. -/
theorem C4_memoization_bounded (files : Str → ConfigFile)
    (st : ResolverState) (k : ConfigKey)
    (v : MetadataConfig × VariantConfig) (st1 : ResolverState)
    (h : read_configuration_cached files st k = (.ok v, st1)) :
    read_configuration_cached files st1 k =
      (.ok v, { st1 with cache := lruInsert st1.cache k v }) ∧
    ∀ st2, read_configuration_cached files st1 k = (.ok v, st2) →
      st2.readCount = st1.readCount := by
  have hcache : ∃ c0, st1.cache = lruInsert c0 k v := by
    unfold read_configuration_cached at h
    split at h
    next v0 hfind =>
      obtain ⟨h1, h2⟩ := Prod.mk.injEq _ _ _ _ ▸ h
      refine ⟨st.cache, ?_⟩
      rw [← h2]
      rw [show v0 = v from Except.ok.inj h1]
    next hfind =>
      split at h
      next v0 hres =>
        obtain ⟨h1, h2⟩ := Prod.mk.injEq _ _ _ _ ▸ h
        refine ⟨st.cache, ?_⟩
        rw [← h2]
        rw [show v0 = v from Except.ok.inj h1]
      next e hres => exact Except.noConfusion (congrArg Prod.fst h)
  obtain ⟨c0, hc⟩ := hcache
  have hfind1 : lruFind st1.cache k = some v := by
    rw [hc]
    exact lruFind_lruInsert c0 k v
  have hcall : read_configuration_cached files st1 k =
      (.ok v, { st1 with cache := lruInsert st1.cache k v }) := by
    unfold read_configuration_cached
    rw [hfind1]
  refine ⟨hcall, ?_⟩
  intro st2 h2
  rw [hcall] at h2
  obtain ⟨_, hst⟩ := Prod.mk.injEq _ _ _ _ ▸ h2
  rw [← hst]

/-- Witness for C4 (amended): a first call on an empty cache, then the
repeat, at the concrete triple `("cfg", None, None)`. -/
theorem C4_memoization_bounded_witness :
    read_configuration_cached c4Files
        { cache := [((tl "cfg", none, none), ({}, {}))], readCount := 1 }
        (tl "cfg", none, none) =
      (.ok ({}, {}),
        { cache := lruInsert [((tl "cfg", none, none), ({}, {}))]
            (tl "cfg", none, none) ({}, {}),
          readCount := 1 }) ∧
    ∀ st2, read_configuration_cached c4Files
        { cache := [((tl "cfg", none, none), ({}, {}))], readCount := 1 }
        (tl "cfg", none, none) = (.ok ({}, {}), st2) →
      st2.readCount = 1 :=
  C4_memoization_bounded c4Files {} (tl "cfg", none, none) ({}, {})
    { cache := [((tl "cfg", none, none), ({}, {}))], readCount := 1 }
    (by decide)

/-- Modelled from the spec (4.2, external `variantlib` constants): a variant
label must fully match a fixed alphanumeric pattern of bounded length; the
bound stands for the implementation-defined `VARIANT_LABEL_LENGTH`. -/
def variantLabelLength : Nat := 16

/-- Modelled from the spec: `VALIDATION_VARIANT_LABEL_REGEX.fullmatch`. -/
def validVariantLabel (label : Str) : Bool :=
  !label.isEmpty && label.all (fun c => c.isAlphanum) &&
    decide (label.length ≤ variantLabelLength)

/-- Modelled from the spec (section 3, external
`VALIDATION_WHEEL_NAME_REGEX`): the archive filename grammar
`name-version[+local]-pytag-abitag-platformtag.whl`, checked as a `.whl`
name whose stem has exactly five nonempty dash-separated segments; the
`base_wheel_name` group of the regex is the stem. -/
def validWheelName (filename : Str) : Bool :=
  endsWithS filename (tl ".whl") &&
    (let parts := splitDash (filename.take (filename.length - 4))
     parts.length == 5 && parts.all (fun p => !p.isEmpty))

/-- Match positions of `re.sub(r"\+[a-zA-Z0-9_\.]+\.", ".", s)` (build.py
line 327): at a `+`, the greedy class run followed by a literal dot
backtracks to the longest prefix of the maximal tag-character run whose next
character is a dot; as `.` is in the class, that is the last dot strictly
inside the maximal run, at position at least 1. -/
def lastTagDot (rest : Str) : Option Nat :=
  let m := rest.takeWhile isTagChar
  ((List.range m.length).filter
    (fun p => decide (1 ≤ p) && (m.getD p '-' == '.'))).getLast?

/-- `re.sub(r"\+[a-zA-Z0-9_\.]+\.", ".", s)`, fuel-structured like
`subPlusTagF` (each step consumes at least one character). -/
def subPlusTagDotF : Nat → Str → Str
  | _, [] => []
  | 0, s => s
  | fuel + 1, c :: rest =>
    if c = '+' then
      match lastTagDot rest with
      | some p => '.' :: subPlusTagDotF fuel (rest.drop (p + 1))
      | none => c :: subPlusTagDotF fuel rest
    else c :: subPlusTagDotF fuel rest

/-- The dist-info directory-name normalization regex of build.py line 327. -/
def subPlusTagDot (s : Str) : Str := subPlusTagDotF s.length s

/-- Modelled from the spec (4.4 step 3, section 6): the unpacked-wheel view
`make_variant` operates on — the names of the subdirectories of the single
top-level extracted directory (in iteration order), the METADATA record
inside the dist-info directory, and the compatibility-tag part that the
external `wheel_pack` primitive later uses to name the packed archive
`{dist-info stem}-{tags}.whl`. -/
structure UnpackedWheel where
  dirs : List Str
  metadata : Metadata
  tags : Str
deriving Repr, DecidableEq

/-- Observable side effects of one `make_variant` run, in order. -/
inductive Effect where
  | renamedDistInfo (oldName newName : Str)
  | wroteDescriptor (dirName : Str) (label : Str)
  | rewroteMetadata (dirName : Str)
  | published (filename : Str)
deriving Repr, DecidableEq

/-- Whether an error is Python's `FileNotFoundError` (the class build.py
raises for missing input files and directories). -/
def PyError.isFileNotFound : PyError → Bool
  | .fileNotFoundError _ => true
  | _ => false

/-- `make_variant` (build.py 253-373).  Filesystem existence checks are
reduced to the `outputDirExists` flag; the external wheel unpack/pack and
descriptor services are modelled from the spec via `unpacked` and the packed
name `{dist-info stem}-{tags}.whl`; `vdescDigest` stands for the content
digest the external encoder would derive for an absent `variant_label`.
Returns the published output filename together with the ordered effects
performed up to the return or the raised error. -/
def make_variant_model (inputFilename : Str) (unpacked : UnpackedWheel)
    (config : ConfigFile)
    (metadata_config_name variant_config_name : Option Str)
    (vdescDigest : Str) (outputDirExists : Bool) :
    Except PyError Str × List Effect :=
  if validWheelName inputFilename = false then
    (.error (.valueError
      (inputFilename ++ tl " is not a valid wheel filename.")), [])
  else if outputDirExists = false then
    (.error (.fileNotFoundError (tl "Output Directory does not exists.")), [])
  else
    match read_configuration_pure config metadata_config_name
        variant_config_name with
    | .error e => (.error e, [])
    | .ok (mcfg, vcfg) =>
      let variant_label := vcfg.variantLabel.getD vdescDigest
      if validVariantLabel variant_label = false then
        (.error (.valueError (tl "invalid variant label: " ++ variant_label)),
          [])
      else
        match unpacked.dirs.find? (fun d => endsWithS d (tl ".dist-info")) with
        | none =>
          (.error (.fileNotFoundError
            (tl "No *.dist-info directory found in unpacked wheel")), [])
        | some distinfoDir =>
          let newDirName := subPlusTagDot distinfoDir
          let effs1 :=
            (if newDirName ≠ distinfoDir then
              [Effect.renamedDistInfo distinfoDir newDirName]
            else []) ++ [Effect.wroteDescriptor newDirName variant_label]
          match repack_variant_core mcfg newDirName unpacked.metadata with
          | .error e => (.error e, effs1)
          | .ok (dir2, _) =>
            let effs2 := effs1 ++ [Effect.rewroteMetadata dir2]
            let packedName :=
              stripDistInfoSuffix dir2 ++ '-' :: unpacked.tags ++ tl ".whl"
            if validWheelName packedName = false then
              (.error (.valueError
                (packedName ++ tl " is not a valid wheel filename.")), effs2)
            else
              let base := packedName.take (packedName.length - 4)
              match sanitize_wheel_filename
                  (base ++ '-' :: variant_label ++ tl ".whl") with
              | .error e => (.error e, effs2)
              | .ok outName =>
                (.ok outName, effs2 ++ [Effect.published outName])

theorem pair_err_ne_ok {e : PyError} {x : Str} {l1 l2 : List Effect}
    (h : ((Except.error e : Except PyError Str), l1) = (.ok x, l2)) :
    False := by
  obtain ⟨h1, _⟩ := Prod.mk.injEq _ _ _ _ ▸ h
  exact Except.noConfusion h1

set_option maxRecDepth 16000 in
set_option maxHeartbeats 1600000 in
/-- C1: end-to-end, the published output filename is the packed base name
with the resolved variant label appended before `.whl`, run through
`sanitize_wheel_filename`; for `pkg-1.0.0+cu126-py3-none-any.whl` with
explicit label `v1` and a `normalize_package_name` profile whose suffix
patterns do not match, the output is exactly
`pkg-1.0.0-py3-none-any-v1.whl` (and the record's Name/Version are
untouched); in every successful run the published name is the returned name
and is the final effect. -/
theorem C1_end_to_end_filename :
    make_variant_model (tl "pkg-1.0.0+cu126-py3-none-any.whl")
        { dirs := [tl "pkg-1.0.0+cu126.dist-info"],
          metadata :=
            { name := tl "pkg", version := tl "1.0.0+cu126",
              requiresDist := [] },
          tags := tl "py3-none-any" }
        { metadata_configs := some [(tl "m", { normalizePackageName := true })],
          variant_configs :=
            some [(tl "v", { variantLabel := some (tl "v1") })] }
        (some (tl "m")) (some (tl "v")) (tl "0123abcd") true =
      (.ok (tl "pkg-1.0.0-py3-none-any-v1.whl"),
        [Effect.renamedDistInfo (tl "pkg-1.0.0+cu126.dist-info")
          (tl "pkg-1.0.0.dist-info"),
         Effect.wroteDescriptor (tl "pkg-1.0.0.dist-info") (tl "v1"),
         Effect.rewroteMetadata (tl "pkg-1.0.0.dist-info"),
         Effect.published (tl "pkg-1.0.0-py3-none-any-v1.whl")]) ∧
    sanitize_wheel_filename
      (tl "pkg-1.0.0-py3-none-any" ++ '-' :: tl "v1" ++ tl ".whl") =
      .ok (tl "pkg-1.0.0-py3-none-any-v1.whl") ∧
    repack_variant_core { normalizePackageName := true }
      (tl "pkg-1.0.0.dist-info")
      { name := tl "pkg", version := tl "1.0.0+cu126", requiresDist := [] } =
      .ok (tl "pkg-1.0.0.dist-info",
        { name := tl "pkg", version := tl "1.0.0+cu126",
          requiresDist := [] }) ∧
    (∀ (input : Str) (unpacked : UnpackedWheel) (config : ConfigFile)
        (mn vn : Option Str) (dig : Str) (od : Bool) (r : Str)
        (effs : List Effect),
      make_variant_model input unpacked config mn vn dig od =
        (.ok r, effs) →
      effs.getLast? = some (Effect.published r)) := by
  refine ⟨by decide, by decide, by decide, ?_⟩
  intro input unpacked config mn vn dig od r effs h
  simp only [make_variant_model] at h
  split at h
  · exact (pair_err_ne_ok h).elim
  split at h
  · exact (pair_err_ne_ok h).elim
  split at h
  · exact (pair_err_ne_ok h).elim
  next mcfg vcfg heq =>
    split at h
    · exact (pair_err_ne_ok h).elim
    split at h
    · exact (pair_err_ne_ok h).elim
    next distinfoDir hfind =>
      split at h
      · exact (pair_err_ne_ok h).elim
      next dir2 md2 hrep =>
        split at h
        · exact (pair_err_ne_ok h).elim
        split at h
        · exact (pair_err_ne_ok h).elim
        next outName hsan =>
          obtain ⟨h1, h2⟩ := Prod.mk.injEq _ _ _ _ ▸ h
          rw [← h2, ← Except.ok.inj h1]
          exact List.getLast?_concat _

set_option maxRecDepth 16000 in
set_option maxHeartbeats 1600000 in
/-- Witness for C1: the published name is the final effect of the concrete
end-to-end run. -/
theorem C1_end_to_end_filename_witness :
    ([Effect.renamedDistInfo (tl "pkg-1.0.0+cu126.dist-info")
        (tl "pkg-1.0.0.dist-info"),
      Effect.wroteDescriptor (tl "pkg-1.0.0.dist-info") (tl "v1"),
      Effect.rewroteMetadata (tl "pkg-1.0.0.dist-info"),
      Effect.published (tl "pkg-1.0.0-py3-none-any-v1.whl")] :
      List Effect).getLast? =
      some (Effect.published (tl "pkg-1.0.0-py3-none-any-v1.whl")) :=
  C1_end_to_end_filename.2.2.2 (tl "pkg-1.0.0+cu126-py3-none-any.whl")
    { dirs := [tl "pkg-1.0.0+cu126.dist-info"],
      metadata :=
        { name := tl "pkg", version := tl "1.0.0+cu126",
          requiresDist := [] },
      tags := tl "py3-none-any" }
    { metadata_configs := some [(tl "m", { normalizePackageName := true })],
      variant_configs := some [(tl "v", { variantLabel := some (tl "v1") })] }
    (some (tl "m")) (some (tl "v")) (tl "0123abcd") true
    (tl "pkg-1.0.0-py3-none-any-v1.whl")
    [Effect.renamedDistInfo (tl "pkg-1.0.0+cu126.dist-info")
      (tl "pkg-1.0.0.dist-info"),
     Effect.wroteDescriptor (tl "pkg-1.0.0.dist-info") (tl "v1"),
     Effect.rewroteMetadata (tl "pkg-1.0.0.dist-info"),
     Effect.published (tl "pkg-1.0.0-py3-none-any-v1.whl")]
    (by decide)

/-- C9 counterexample: the abort for a missing dist-info directory is raised
as `FileNotFoundError` (build.py line 323) — the very class build.py uses
for missing input files and directories (lines 162, 165, 264, 272) — so it
is not an error category distinct from the Not Found Errors; here the
missing-dist-info abort and the missing-output-directory abort carry the
same error class. -/
theorem C9_counterexample :
    (make_variant_model (tl "pkg-1.0.0-py3-none-any.whl")
        { dirs := [tl "pkg"],
          metadata :=
            { name := tl "pkg", version := tl "1.0.0",
              requiresDist := [] },
          tags := tl "py3-none-any" } {} none none (tl "0123abcd") true =
      (.error (.fileNotFoundError
        (tl "No *.dist-info directory found in unpacked wheel")), [])) ∧
    (make_variant_model (tl "pkg-1.0.0-py3-none-any.whl")
        { dirs := [tl "pkg"],
          metadata :=
            { name := tl "pkg", version := tl "1.0.0",
              requiresDist := [] },
          tags := tl "py3-none-any" } {} none none (tl "0123abcd") false =
      (.error (.fileNotFoundError (tl "Output Directory does not exists.")),
        [])) ∧
    PyError.isFileNotFound (.fileNotFoundError
      (tl "No *.dist-info directory found in unpacked wheel")) = true ∧
    PyError.isFileNotFound (.fileNotFoundError
      (tl "Output Directory does not exists.")) = true := by
  refine ⟨by decide, by decide, rfl, rfl⟩

/-- C9 (amended): when the unpacked archive contains no subdirectory ending
in `.dist-info`, the orchestrator aborts before performing any effect — no
directory rename, no descriptor write, no metadata rewrite, no publish —
raising `FileNotFoundError` ("No *.dist-info directory found in unpacked
wheel"), which is the same error class as the missing-input Not Found
Errors, not a distinct structural category. -/
theorem C9_structural_abort (input : Str) (unpacked : UnpackedWheel)
    (config : ConfigFile) (mn vn : Option Str) (dig : Str)
    (mcfg : MetadataConfig) (vcfg : VariantConfig)
    (hval : validWheelName input = true)
    (hcfg : read_configuration_pure config mn vn = .ok (mcfg, vcfg))
    (hlab : validVariantLabel (vcfg.variantLabel.getD dig) = true)
    (hnone : unpacked.dirs.find?
      (fun d => endsWithS d (tl ".dist-info")) = none) :
    make_variant_model input unpacked config mn vn dig true =
      (.error (.fileNotFoundError
        (tl "No *.dist-info directory found in unpacked wheel")), []) ∧
    PyError.isFileNotFound (.fileNotFoundError
      (tl "No *.dist-info directory found in unpacked wheel")) = true := by
  refine ⟨?_, rfl⟩
  simp only [make_variant_model, hval, hcfg, hlab, hnone, Bool.true_eq_false,
    if_false]

/-- Witness for C9 (amended) at a concrete unpacked wheel with no dist-info
subdirectory. -/
theorem C9_structural_abort_witness :
    make_variant_model (tl "pkg-1.0.0-py3-none-any.whl")
        { dirs := [tl "pkg"],
          metadata :=
            { name := tl "pkg", version := tl "1.0.0",
              requiresDist := [] },
          tags := tl "py3-none-any" } {} none none (tl "0123abcd") true =
      (.error (.fileNotFoundError
        (tl "No *.dist-info directory found in unpacked wheel")), []) ∧
    PyError.isFileNotFound (.fileNotFoundError
      (tl "No *.dist-info directory found in unpacked wheel")) = true :=
  C9_structural_abort (tl "pkg-1.0.0-py3-none-any.whl")
    { dirs := [tl "pkg"],
      metadata :=
        { name := tl "pkg", version := tl "1.0.0", requiresDist := [] },
      tags := tl "py3-none-any" } {} none none (tl "0123abcd") {} {}
    (by decide) (by decide) (by decide) (by decide)

end VariantRepack
